import Mathlib

/-!
Verification development for the finance-automation-dashboard backend.

Calendar dates are embedded as integers counting days since the Unix epoch
(`timedelta(days = n)` becomes integer addition), so `date.today()` becomes an
explicit `today : Int` parameter.  Optional `YYYY-MM-DD` query parameters are
embedded as `DateParam` (absent / malformed / valid), since only the parse
outcome of `date.fromisoformat` is relevant to the control flow.
-/

namespace FinanceDash



/-- `PROVIDER_DELAY_DAYS` from `backend/main.py`. -/
def PROVIDER_DELAY_DAYS : Int := 3

/-- `MAX_HISTORY_DAYS` from `backend/main.py`. -/
def MAX_HISTORY_DAYS : Int := 365 * 2

/-- `clamp_end_for_provider` from `backend/main.py`; `date.today()` is the
explicit `today` argument. -/
def clamp_end_for_provider (today d : Int) : Int :=
  min d (today - PROVIDER_DELAY_DAYS)

/-- `clamp_start_for_plan` from `backend/main.py`. -/
def clamp_start_for_plan (start_d end_d : Int) : Int :=
  max start_d (end_d - MAX_HISTORY_DAYS)

/-- An optional date query parameter as seen by `parse_iso_date`:
omitted (or empty string), present but not `YYYY-MM-DD`, or a valid date. -/
inductive DateParam where
  | absent
  | malformed
  | valid (d : Int)
deriving DecidableEq

/-- The value a `DateParam` contributes after `parse_iso_date(...) or default`
/ `if desired_start is None` handling in the callers. -/
def DateParam.getD : DateParam → Int → Int
  | .valid d, _ => d
  | _, dflt => dflt

/-- An HTTP error response (`HTTPException`). -/
structure HTTPError where
  status : Nat
  detail : String
deriving DecidableEq

/-- `parse_iso_date` from `backend/main.py`: `None`/empty gives `None`,
a malformed string raises a 400 naming the field, a valid string parses. -/
def parse_iso_date (field : String) : DateParam → Except HTTPError (Option Int)
  | .absent => .ok none
  | .malformed => .error ⟨400, field ++ " must be YYYY-MM-DD"⟩
  | .valid d => .ok (some d)

/-- The date-parameter handling segment of `confirm_symbol`
(`backend/main.py` lines 386-396): parse `end`, default to today, clamp for
the provider delay; parse `start`, default to end minus 365 days, clamp for
the plan history limit; reject with 400 when start exceeds end. -/
def confirmClamp (today : Int) (start end_ : DateParam) :
    Except HTTPError (Int × Int) :=
  match parse_iso_date "end" end_ with
  | .error e => .error e
  | .ok endOpt =>
    let desired_end := clamp_end_for_provider today (endOpt.getD today)
    match parse_iso_date "start" start with
    | .error e => .error e
    | .ok startOpt =>
      let ds0 := startOpt.getD (desired_end - 365)
      let desired_start := clamp_start_for_plan ds0 desired_end
      if desired_start > desired_end then
        .error ⟨400, "start must be <= end"⟩
      else
        .ok (desired_start, desired_end)

/-- The gap computation of `confirm_symbol` (`backend/main.py` lines 433-442):
from the existing `"1d"` coverage extent (`none` when no bars exist) and the
clamped desired range, build the missing ranges and drop degenerate ones. -/
def computeGaps (have_range : Option (Int × Int)) (desired_start desired_end : Int) :
    List (Int × Int) :=
  (match have_range with
   | none => [(desired_start, desired_end)]
   | some (hs, he) =>
     (if desired_start < hs then [(desired_start, hs - 1)] else []) ++
       (if desired_end > he then [(he + 1, desired_end)] else []))
  |>.filter (fun r => decide (r.1 ≤ r.2))

/-- Python whitespace as stripped by `str.strip()`. -/
def pyWhitespace (c : Char) : Bool :=
  c == ' ' || c == '\t' || c == '\n' || c == '\r' || c == '\x0B' || c == '\x0C'

/-- Python `str.strip()`: drop leading and trailing whitespace. -/
def pyStrip (s : String) : String :=
  ⟨((s.data.dropWhile pyWhitespace).reverse.dropWhile pyWhitespace).reverse⟩

/-- Python `str.lower()` on one character (the strings this backend lowers
are ASCII URLs and titles). -/
def pyLowerChar (c : Char) : Char :=
  if 'A' ≤ c ∧ c ≤ 'Z' then Char.ofNat (c.toNat + 32) else c

/-- Python `str.lower()`. -/
def pyLower (s : String) : String := ⟨s.data.map pyLowerChar⟩

/-- Python `str.upper()` on one character (tickers are ASCII). -/
def pyUpperChar (c : Char) : Char :=
  if 'a' ≤ c ∧ c ≤ 'z' then Char.ofNat (c.toNat - 32) else c

/-- Python `str.upper()`. -/
def pyUpper (s : String) : String := ⟨s.data.map pyUpperChar⟩

/-- A headline dictionary as handled by `dedupe_headlines`: the `title` /
`url` / `source` (domain) / `published_at` keys may be absent (`h.get`
returning `None`). -/
structure Headline where
  title : Option String
  url : Option String
  source : Option String
  published_at : Option String
deriving DecidableEq

/-- The deduplication key of one item in `dedupe_headlines`
(`backend/main.py` lines 112-114): trimmed lowercased url when the trimmed
url is non-empty, else trimmed lowercased title. -/
def dedupeKey (h : Headline) : String :=
  let title := pyStrip (h.title.getD "")
  let url := pyStrip (h.url.getD "")
  if url ≠ "" then pyLower url else pyLower title

/-- The loop of `dedupe_headlines` (`backend/main.py` lines 111-120):
`seen` is the set of keys already kept, `outLen` the number of items already
appended to `out`; appending checks `len(out) >= limit` afterwards and
breaks.  `limit` is a Python `int`, hence `Int`. -/
def dedupeGo (limit : Int) (seen : List String) (outLen : Nat) :
    List Headline → List Headline
  | [] => []
  | h :: hs =>
    let key := dedupeKey h
    if key = "" ∨ key ∈ seen then dedupeGo limit seen outLen hs
    else if limit ≤ (outLen : Int) + 1 then [h]
    else h :: dedupeGo limit (key :: seen) (outLen + 1) hs

/-- `dedupe_headlines` from `backend/main.py` (default `limit` is 25 at the
Python level; every call site passes it explicitly). -/
def dedupe_headlines (items : List Headline) (limit : Int) : List Headline :=
  dedupeGo limit [] 0 items

/-- Modelled from the spec wording for comparison: keep, in order, the first
item for each non-empty deduplication key, with no cap. -/
def firstPerKey (seen : List String) : List Headline → List Headline
  | [] => []
  | h :: hs =>
    let key := dedupeKey h
    if key = "" ∨ key ∈ seen then firstPerKey seen hs
    else h :: firstPerKey (key :: seen) hs

/-- A `Symbol` row (`backend/models.py`): ticker plus nullable metadata. -/
structure SymbolRec where
  ticker : String
  name : Option String
  exchange : Option String
  country : Option String
  currency : Option String
  mic : Option String
  type : Option String
deriving DecidableEq

/-- The dictionary returned by `fetch_profile`
(`backend/providers/finnhub.py`): each field absent or a string. -/
structure ProfileData where
  name : Option String
  exchange : Option String
  country : Option String
  currency : Option String
  mic : Option String
  type : Option String
deriving DecidableEq

/-- Python truthiness of a nullable string column / dict value:
`None` and the empty string are falsy. -/
def pyTruthy : Option String → Bool
  | none => false
  | some s => !(s == "")

/-- `ensure_symbol_metadata` from `backend/main.py` lines 84-105, with the
`fetch_profile` result passed explicitly: return unchanged when `sym.name`
is truthy, otherwise assign every truthy profile field. -/
def ensure_symbol_metadata (meta : ProfileData) (sym : SymbolRec) : SymbolRec :=
  if pyTruthy sym.name then sym
  else
    SymbolRec.mk sym.ticker
      (if pyTruthy meta.name then meta.name else sym.name)
      (if pyTruthy meta.exchange then meta.exchange else sym.exchange)
      (if pyTruthy meta.country then meta.country else sym.country)
      (if pyTruthy meta.currency then meta.currency else sym.currency)
      (if pyTruthy meta.mic then meta.mic else sym.mic)
      (if pyTruthy meta.type then meta.type else sym.type)

/-- `RateLimiter` state (`backend/providers/rate_limit.py`): the spacing
period and the earliest time the next call may proceed.  Times are embedded
as rationals (idealised `time.time()` / `time.sleep`). -/
structure RateLimiter where
  period : ℚ
  next_allowed : ℚ
deriving DecidableEq

/-- `RateLimiter.__init__`: rejects `calls_per_minute <= 0` (`ValueError`),
otherwise sets `period = 60 / calls_per_minute` and `next_allowed = 0`. -/
def RateLimiter.init (calls_per_minute : Int) : Option RateLimiter :=
  if calls_per_minute ≤ 0 then none
  else some ⟨60 / (calls_per_minute : ℚ), 0⟩

/-- The observable outcome of one `RateLimiter.wait` call: how long it
slept, the time when it returned (grant time), and the updated limiter. -/
structure WaitResult where
  slept : ℚ
  releaseTime : ℚ
  limiter : RateLimiter
deriving DecidableEq

/-- `RateLimiter.wait` (`backend/providers/rate_limit.py` lines 20-25),
executed under `self.lock` so calls are serialised; `now` is the
`time.time()` reading, and an exact `sleep` makes the post-sleep clock
`now + slept`. -/
def RateLimiter.wait (rl : RateLimiter) (now : ℚ) : WaitResult :=
  let slept := if now < rl.next_allowed then rl.next_allowed - now else 0
  ⟨slept, now + slept, ⟨rl.period, (now + slept) + rl.period⟩⟩

/-- `massive_limiter = RateLimiter(calls_per_minute=5)`. -/
def massive_limiter : Option RateLimiter := RateLimiter.init 5

/-- `polygon_limiter = massive_limiter` (backward compatible alias). -/
def polygon_limiter : Option RateLimiter := massive_limiter

/-- The `(ticker or "").upper().strip()` normalisation. -/
def pyNormTicker (s : String) : String := pyStrip (pyUpper s)

/-- `get_or_create_symbol` from `backend/main.py` lines 68-81 acting on the
set of stored tickers: raises `ValueError` on an empty normalised ticker,
otherwise inserts (a no-op when the row exists) and commits. -/
def get_or_create_symbol (store : Finset String) (ticker : String) :
    Except String (Finset String × String) :=
  let t := pyNormTicker ticker
  if t = "" then .error "ticker is empty"
  else .ok (insert t store, t)

/-- The error channel of the opening segment of `confirm_symbol`. -/
inductive ConfirmErr where
  | valueError (msg : String)
  | http (e : HTTPError)
deriving DecidableEq

/-- The opening segment of `confirm_symbol` (`backend/main.py` lines
376-396) over the set of stored tickers: normalise the ticker, create and
commit the `Symbol` row, then parse and validate the date parameters
(`ensure_symbol_metadata` runs in between but never touches the ticker
set).  The returned set is the committed store at the point the segment
finishes or raises. -/
def confirm_symbol_early (store : Finset String) (ticker : String)
    (start end_ : DateParam) (today : Int) :
    Finset String × Except ConfirmErr (Int × Int) :=
  let t := pyNormTicker ticker
  match get_or_create_symbol store t with
  | .error m => (store, .error (.valueError m))
  | .ok (store1, _t1) =>
    match confirmClamp today start end_ with
    | .error e => (store1, .error (.http e))
    | .ok r => (store1, .ok r)

/-- A stored `NewsArticle` row for one `(symbol, day)` as read back by the
cache query (`backend/models.py`): `title` and `url` are non-null, `domain`
and `published_at` nullable; `published_at` is embedded as its already
ISO-formatted string. -/
structure NewsArticleRec where
  title : String
  url : String
  domain : Option String
  published_at : Option String
deriving DecidableEq

/-- The dictionary built from a cached row in `news_for_day`
(`backend/main.py` lines 314-322): `source` is the stored domain. -/
def cachedToHeadline (a : NewsArticleRec) : Headline :=
  ⟨some a.title, some a.url, a.domain, a.published_at⟩

/-- One raw result of `get_headlines_for_day_bigquery`: a dictionary whose
`title` / `url` / `domain` / `published_at` keys may be absent. -/
structure GdeltHeadline where
  title : Option String
  url : Option String
  domain : Option String
  published_at : Option String
deriving DecidableEq

/-- The normalisation applied to each provider result in `news_for_day`
(`backend/main.py` lines 336-345): trim title/url/domain, rename `domain`
to `source`, pass `published_at` through. -/
def normalizeHeadline (h : GdeltHeadline) : Headline :=
  ⟨some (pyStrip (h.title.getD "")),
   some (pyStrip (h.url.getD "")),
   some (pyStrip (h.domain.getD "")),
   h.published_at⟩

/-- The URLs under which a list of headline dictionaries is inserted
(`h.get("url") or ""` of each `to_insert` row). -/
def headlineUrls (hs : List Headline) : List String :=
  hs.map (fun h => h.url.getD "")

/-- The observable outcome of one `news_for_day` request for a fixed
`(symbol, day)`: the returned headlines, whether the upstream news provider
was called, and the set of article URLs stored for the symbol afterwards
(the scope of the `(symbol_id, url)` uniqueness constraint). -/
structure NewsOutcome where
  headlines : List Headline
  providerCalled : Bool
  store : Finset String
deriving DecidableEq

/-- `news_for_day` (`backend/main.py` lines 292-369) for one `(symbol, day)`:
`cachedAll` is the stored-article query result for that day in query order,
read through `.limit(limit * 3)`; `store` is the set of URLs stored for the
symbol (any day); `providerResult` is what the news provider would return.
On a cache hit the cached rows are deduplicated and returned with no
provider call.  On a miss the provider results are normalised, deduplicated,
and inserted with `add_all` + one `commit` whose `IntegrityError` (any row
hitting the `(symbol_id, url)` constraint, against the store or inside the
batch) rolls the whole batch back; the deduplicated list is returned either
way. -/
def news_for_day (store : Finset String) (cachedAll : List NewsArticleRec)
    (providerResult : List GdeltHeadline) (limit : Int) : NewsOutcome :=
  let cached := cachedAll.take (limit * 3).toNat
  if cached.isEmpty then
    let norm := dedupe_headlines (providerResult.map normalizeHeadline) limit
    let urls := headlineUrls norm
    let newStore :=
      if urls.Nodup ∧ ∀ u ∈ urls, u ∉ store then store ∪ urls.toFinset
      else store
    ⟨norm, true, newStore⟩
  else
    ⟨dedupe_headlines (cached.map cachedToHeadline) limit, false, store⟩

/-- What one attempt of the `fetch_bars` retry loop
(`backend/providers/massive.py`) runs into, indexed by the 1-based attempt
number: an HTTP 401/403 (`authErr`), an HTTP 400 (`badReq`), a successful
response with parsed bar timestamps, or any other failure (network error,
timeout, `raise_for_status` on an unexpected status, JSON error). -/
inductive AttemptOutcome where
  | authErr (status : Nat)
  | badReq
  | ok (bars : List Int)
  | netFail
deriving DecidableEq

/-- How a `fetch_bars` call ends. -/
inductive FetchResult where
  | ok (bars : List Int)
  | errKeyMissing
  | errBadDates
  | errAuth (status : Nat)
  | errBadRequest
  | errWrapped (lastAttempt : Nat)
deriving DecidableEq

/-- The observable trace of one `fetch_bars` call: its result, how many
network requests were issued, and the durations slept between attempts, in
order. -/
structure FetchTrace where
  result : FetchResult
  calls : Nat
  sleeps : List ℚ
deriving DecidableEq

/-- The retry loop of `fetch_bars` (`backend/providers/massive.py` lines
91-135): `attempt` is the 1-based attempt number, `remaining` the attempts
left (initially `max_retries`).  A `ProviderError` raised for 401/403/400 is
re-raised immediately; any other exception sleeps
`retry_backoff_s × attempt` and retries while `attempt < max_retries`, and
is wrapped in a single `ProviderError` after the last attempt. -/
def runAttempts (outcomes : Nat → AttemptOutcome) (backoff : ℚ) :
    (attempt : Nat) → (remaining : Nat) → FetchTrace
  | _, 0 => ⟨.errWrapped 0, 0, []⟩
  | attempt, r + 1 =>
    match outcomes attempt with
    | .authErr s => ⟨.errAuth s, 1, []⟩
    | .badReq => ⟨.errBadRequest, 1, []⟩
    | .ok bars => ⟨.ok bars, 1, []⟩
    | .netFail =>
      if r = 0 then ⟨.errWrapped attempt, 1, []⟩
      else
        let rest := runAttempts outcomes backoff (attempt + 1) r
        ⟨rest.result, rest.calls + 1, backoff * attempt :: rest.sleeps⟩

/-- `UNIX_EPOCH` as a day number. -/
def UNIX_EPOCH : Int := 0

/-- `fetch_bars` (`backend/providers/massive.py` lines 47-139): require the
API key, return empty on a blank ticker, parse the two dates (`none` embeds
a malformed `YYYY-MM-DD` string) raising `ProviderError` before any network
call, return empty when `date_from > date_to` or the whole range precedes
the Unix epoch, then run the retry loop with `max_retries = 3` and
`retry_backoff_s = 0.8`. -/
def fetch_bars (hasKey : Bool) (ticker : String)
    (date_from date_to : Option Int) (outcomes : Nat → AttemptOutcome) :
    FetchTrace :=
  if !hasKey then ⟨.errKeyMissing, 0, []⟩
  else if pyNormTicker ticker = "" then ⟨.ok [], 0, []⟩
  else
    match date_from, date_to with
    | none, _ => ⟨.errBadDates, 0, []⟩
    | some _, none => ⟨.errBadDates, 0, []⟩
    | some df, some dt_ =>
      if df > dt_ then ⟨.ok [], 0, []⟩
      else if dt_ < UNIX_EPOCH then ⟨.ok [], 0, []⟩
      else runAttempts outcomes (4 / 5) 1 3

/-!
For the merge/idempotence reasoning the `"1d"` bar rows of one symbol are
abstracted to the set of days carrying a bar (each daily bar's timestamp is
its day; the `(symbol_id, timeframe, ts)` uniqueness key reduces to the
day).  The upstream provider is deterministic ("no data change in between"):
`P d` says whether it has a daily bar for day `d`, and a range fetch returns
exactly its bar days inside the range, ascending.
-/

/-- The `oldest`/`latest` extent queries of `confirm_symbol`
(`backend/main.py` lines 417-431): both empty or both present. -/
def haveRange (s : Finset Int) : Option (Int × Int) :=
  if h : s.Nonempty then some (s.min' h, s.max' h) else none

/-- The consecutive days `a, a+1, …` of length `n`, ascending. -/
def rangeDays (a : Int) : Nat → List Int
  | 0 => []
  | n + 1 => a :: rangeDays (a + 1) n

/-- The provider's response to `fetch_bars` for the range `[a, b]`:
its bar days inside the range, in ascending order (the days
`a, a+1, …, b` filtered by `P`). -/
def fetchBarsDays (P : Int → Bool) (a b : Int) : List Int :=
  (rangeDays a (b + 1 - a).toNat).filter P

/-- The row-by-row fallback of the merge (`backend/main.py` lines 485-491):
insert each row in its own commit, skipping exactly the rows whose key is
already present, counting each successful insert. -/
def rowByRow : Finset Int → List Int → Finset Int × Nat
  | s, [] => (s, 0)
  | s, t :: ts =>
    if t ∈ s then rowByRow s ts
    else
      let r := rowByRow (insert t s) ts
      (r.1, r.2 + 1)

/-- The merge of one fetched batch (`backend/main.py` lines 479-491): a
single batch commit that succeeds (counting the whole batch) when no row
violates the `(symbol_id, timeframe, ts)` uniqueness constraint, and
otherwise rolls back and falls back to `rowByRow`. -/
def mergeBatch (s : Finset Int) (batch : List Int) : Finset Int × Nat :=
  if (∀ t ∈ batch, t ∉ s) ∧ batch.Nodup then
    (s ∪ batch.toFinset, batch.length)
  else rowByRow s batch

/-- The fetch-and-merge loop of `confirm_symbol` over the missing ranges
(`backend/main.py` lines 447-491), accumulating the store and
`bars_inserted`. -/
def runGaps (P : Int → Bool) : Finset Int × Nat → List (Int × Int) → Finset Int × Nat
  | acc, [] => acc
  | acc, g :: gs =>
    let r := mergeBatch acc.1 (fetchBarsDays P g.1 g.2)
    runGaps P (r.1, acc.2 + r.2) gs

/-- The bar-reconciliation core of `confirm_symbol` for one symbol with a
validated clamped range `[ds, de]`: compute the extent, the gaps, then fetch
and merge each gap; returns the resulting bar-day set and `bars_inserted`. -/
def confirmBars (P : Int → Bool) (s : Finset Int) (ds de : Int) :
    Finset Int × Nat :=
  runGaps P (s, 0) (computeGaps (haveRange s) ds de)

end FinanceDash

namespace FinanceDash

/-- C1: for a clamped desired range `[ds, de]` (`ds ≤ de`): with no existing
coverage the gap list is exactly `[(ds, de)]`; with extent `(hs, he)` the gap
list is the left gap `(ds, hs - 1)` exactly when `ds < hs` followed by the
right gap `(he + 1, de)` exactly when `de > he` (degenerate ranges are
discarded, which removes nothing here); in particular full containment gives
the empty list. -/
theorem computeGaps_correct (ds de hs he : Int) (hde : ds ≤ de) :
    computeGaps none ds de = [(ds, de)] ∧
    computeGaps (some (hs, he)) ds de =
      (if ds < hs then [(ds, hs - 1)] else []) ++
        (if de > he then [(he + 1, de)] else []) ∧
    ((ds, hs - 1) ∈ computeGaps (some (hs, he)) ds de ↔ ds < hs) ∧
    ((he + 1, de) ∈ computeGaps (some (hs, he)) ds de ↔ de > he) ∧
    (hs ≤ ds → de ≤ he → computeGaps (some (hs, he)) ds de = []) := by
  refine ⟨?_, ?_, ?_, ?_, ?_⟩
  · simp [computeGaps, hde]
  · by_cases h1 : ds < hs <;> by_cases h2 : de > he <;>
      simp [computeGaps, h1, h2] <;> omega
  · by_cases h1 : ds < hs <;> by_cases h2 : de > he <;>
      simp [computeGaps, h1, h2, Prod.ext_iff] <;> omega
  · by_cases h1 : ds < hs <;> by_cases h2 : de > he <;>
      simp [computeGaps, h1, h2, Prod.ext_iff] <;> omega
  · intro h1 h2
    simp [computeGaps, not_lt.mpr h1, not_lt.mpr h2]

/-- Witness for `computeGaps_correct` at a concrete input. -/
theorem computeGaps_correct_witness :
    computeGaps none 0 9 = [(0, 9)] ∧
    computeGaps (some (3, 5)) 0 9 =
      (if (0 : Int) < 3 then [((0 : Int), 3 - 1)] else []) ++
        (if (9 : Int) > 5 then [((5 : Int) + 1, 9)] else []) ∧
    (((0 : Int), (3 : Int) - 1) ∈ computeGaps (some (3, 5)) 0 9 ↔ (0 : Int) < 3) ∧
    (((5 : Int) + 1, (9 : Int)) ∈ computeGaps (some (3, 5)) 0 9 ↔ (9 : Int) > 5) ∧
    ((3 : Int) ≤ 0 → (9 : Int) ≤ 5 → computeGaps (some (3, 5)) 0 9 = []) :=
  computeGaps_correct 0 9 3 5 (by decide)

/-- C2: for `start`/`end` each omitted or well-formed, the effective end is
`min (end or today) (today - 3)`, the effective start is
`max (start or (effective end - 365)) (effective end - 730)`, and
`confirmClamp` fails with the 400 "start must be <= end" rejection exactly
when the clamped start exceeds the clamped end. -/
theorem confirmClamp_correct (today : Int) (s e : DateParam)
    (hs : s ≠ .malformed) (he : e ≠ .malformed) :
    (max (s.getD (min (e.getD today) (today - 3) - 365))
        (min (e.getD today) (today - 3) - 730) ≤ min (e.getD today) (today - 3) →
      confirmClamp today s e =
        .ok (max (s.getD (min (e.getD today) (today - 3) - 365))
              (min (e.getD today) (today - 3) - 730),
             min (e.getD today) (today - 3))) ∧
    (min (e.getD today) (today - 3) <
        max (s.getD (min (e.getD today) (today - 3) - 365))
          (min (e.getD today) (today - 3) - 730) →
      confirmClamp today s e = .error ⟨400, "start must be <= end"⟩) := by
  constructor
  · intro h
    cases s with
    | malformed => exact absurd rfl hs
    | absent =>
      cases e with
      | malformed => exact absurd rfl he
      | absent =>
        simp_all [confirmClamp, parse_iso_date, DateParam.getD,
          clamp_end_for_provider, clamp_start_for_plan,
          PROVIDER_DELAY_DAYS, MAX_HISTORY_DAYS, not_lt.mpr h]
      | valid d =>
        simp_all [confirmClamp, parse_iso_date, DateParam.getD,
          clamp_end_for_provider, clamp_start_for_plan,
          PROVIDER_DELAY_DAYS, MAX_HISTORY_DAYS, not_lt.mpr h]
    | valid d0 =>
      cases e with
      | malformed => exact absurd rfl he
      | absent =>
        simp_all [confirmClamp, parse_iso_date, DateParam.getD,
          clamp_end_for_provider, clamp_start_for_plan,
          PROVIDER_DELAY_DAYS, MAX_HISTORY_DAYS, not_lt.mpr h]
      | valid d =>
        simp_all [confirmClamp, parse_iso_date, DateParam.getD,
          clamp_end_for_provider, clamp_start_for_plan,
          PROVIDER_DELAY_DAYS, MAX_HISTORY_DAYS, not_lt.mpr h]
  · intro h
    cases s with
    | malformed => exact absurd rfl hs
    | absent =>
      cases e with
      | malformed => exact absurd rfl he
      | absent =>
        simp_all [confirmClamp, parse_iso_date, DateParam.getD,
          clamp_end_for_provider, clamp_start_for_plan,
          PROVIDER_DELAY_DAYS, MAX_HISTORY_DAYS]
      | valid d =>
        simp_all [confirmClamp, parse_iso_date, DateParam.getD,
          clamp_end_for_provider, clamp_start_for_plan,
          PROVIDER_DELAY_DAYS, MAX_HISTORY_DAYS]
    | valid d0 =>
      cases e with
      | malformed => exact absurd rfl he
      | absent =>
        simp_all [confirmClamp, parse_iso_date, DateParam.getD,
          clamp_end_for_provider, clamp_start_for_plan,
          PROVIDER_DELAY_DAYS, MAX_HISTORY_DAYS]
      | valid d =>
        simp_all [confirmClamp, parse_iso_date, DateParam.getD,
          clamp_end_for_provider, clamp_start_for_plan,
          PROVIDER_DELAY_DAYS, MAX_HISTORY_DAYS]

/-- Witness for `confirmClamp_correct`: today = 1000, start = 100, end = 900. -/
theorem confirmClamp_correct_witness :
    (max ((DateParam.valid 100).getD
          (min ((DateParam.valid 900).getD 1000) (1000 - 3) - 365))
        (min ((DateParam.valid 900).getD 1000) (1000 - 3) - 730) ≤
        min ((DateParam.valid 900).getD 1000) (1000 - 3) →
      confirmClamp 1000 (.valid 100) (.valid 900) =
        .ok (max ((DateParam.valid 100).getD
              (min ((DateParam.valid 900).getD 1000) (1000 - 3) - 365))
              (min ((DateParam.valid 900).getD 1000) (1000 - 3) - 730),
             min ((DateParam.valid 900).getD 1000) (1000 - 3))) ∧
    (min ((DateParam.valid 900).getD 1000) (1000 - 3) <
        max ((DateParam.valid 100).getD
          (min ((DateParam.valid 900).getD 1000) (1000 - 3) - 365))
          (min ((DateParam.valid 900).getD 1000) (1000 - 3) - 730) →
      confirmClamp 1000 (.valid 100) (.valid 900) =
        .error ⟨400, "start must be <= end"⟩) :=
  confirmClamp_correct 1000 (.valid 100) (.valid 900) (by decide) (by decide)

theorem firstPerKey_sublist (items : List Headline) :
    ∀ seen : List String, (firstPerKey seen items).Sublist items := by
  induction items with
  | nil => intro seen; simp [firstPerKey]
  | cons h hs ih =>
    intro seen
    by_cases hk : dedupeKey h = "" ∨ dedupeKey h ∈ seen
    · simp only [firstPerKey, if_pos hk]
      exact (ih seen).cons h
    · simp only [firstPerKey, if_neg hk]
      exact (ih (dedupeKey h :: seen)).cons₂ h

theorem firstPerKey_keys (items : List Headline) :
    ∀ seen : List String,
      ((firstPerKey seen items).map dedupeKey).Nodup ∧
      ∀ x ∈ firstPerKey seen items, dedupeKey x ≠ "" ∧ dedupeKey x ∉ seen := by
  induction items with
  | nil => intro seen; simp [firstPerKey]
  | cons h hs ih =>
    intro seen
    by_cases hk : dedupeKey h = "" ∨ dedupeKey h ∈ seen
    · simpa only [firstPerKey, if_pos hk] using ih seen
    · push_neg at hk
      obtain ⟨hk1, hk2⟩ := hk
      obtain ⟨ihn, ihm⟩ := ih (dedupeKey h :: seen)
      simp only [firstPerKey, if_neg (by push_neg; exact ⟨hk1, hk2⟩ :
        ¬(dedupeKey h = "" ∨ dedupeKey h ∈ seen))]
      refine ⟨?_, ?_⟩
      · rw [List.map_cons, List.nodup_cons]
        refine ⟨?_, ihn⟩
        intro hmem
        obtain ⟨x, hx, hxk⟩ := List.mem_map.mp hmem
        exact (ihm x hx).2 (by rw [hxk]; exact List.mem_cons_self _ _)
      · intro x hx
        rcases List.mem_cons.mp hx with hx | hx
        · subst hx; exact ⟨hk1, hk2⟩
        · obtain ⟨hne, hni⟩ := ihm x hx
          exact ⟨hne, fun hmem => hni (List.mem_cons_of_mem _ hmem)⟩

theorem dedupeGo_eq_take (items : List Headline) :
    ∀ (limit : Int) (seen : List String) (outLen : Nat),
      (outLen : Int) < limit →
      dedupeGo limit seen outLen items =
        (firstPerKey seen items).take (limit - outLen).toNat := by
  induction items with
  | nil => intro limit seen outLen hlt; simp [dedupeGo, firstPerKey]
  | cons h hs ih =>
    intro limit seen outLen hlt
    by_cases hk : dedupeKey h = "" ∨ dedupeKey h ∈ seen
    · simp only [dedupeGo, firstPerKey, if_pos hk]
      exact ih limit seen outLen hlt
    · by_cases hbreak : limit ≤ (outLen : Int) + 1
      · have h1 : (limit - outLen).toNat = 1 := by omega
        simp [dedupeGo, firstPerKey, if_neg hk, if_pos hbreak, h1]
      · have hlt2 : ((outLen + 1 : Nat) : Int) < limit := by push_cast; omega
        have h2 : (limit - ((outLen : Int) + 1)).toNat + 1 = (limit - outLen).toNat := by
          omega
        simp only [dedupeGo, firstPerKey, if_neg hk, if_neg hbreak]
        rw [ih limit (dedupeKey h :: seen) (outLen + 1) hlt2]
        push_cast
        rw [← h2, List.take_succ_cons]

/-- C6 (amended): for every positive `limit`, `dedupe_headlines` equals the
first-occurrence-per-key filter (trimmed lowercased url if non-empty, else
trimmed lowercased title; empty keys dropped; first occurrence wins, order
preserved) truncated to `limit` items; consequently the output is a sublist
of the input of length at most `limit`, with pairwise distinct non-empty
keys.  (For `limit ≤ 0` the code still returns the first kept item, see the
counterexample.) -/
theorem dedupe_headlines_correct (items : List Headline) (limit : Int)
    (hl : 1 ≤ limit) :
    dedupe_headlines items limit = (firstPerKey [] items).take limit.toNat ∧
    ((dedupe_headlines items limit).length : Int) ≤ limit ∧
    ((dedupe_headlines items limit).map dedupeKey).Nodup ∧
    (∀ x ∈ dedupe_headlines items limit, dedupeKey x ≠ "") ∧
    (dedupe_headlines items limit).Sublist items := by
  have he : dedupe_headlines items limit =
      (firstPerKey [] items).take limit.toNat := by
    have h0 := dedupeGo_eq_take items limit [] 0 (by omega)
    simpa [dedupe_headlines] using h0
  refine ⟨he, ?_, ?_, ?_, ?_⟩
  · rw [he]
    have h1 : ((firstPerKey [] items).take limit.toNat).length ≤ limit.toNat := by
      simp [List.length_take]
    omega
  · rw [he]
    have hsub : ((firstPerKey [] items).take limit.toNat).map dedupeKey
        |>.Sublist ((firstPerKey [] items).map dedupeKey) :=
      (List.take_sublist _ _).map dedupeKey
    exact (firstPerKey_keys items []).1.sublist hsub
  · rw [he]
    intro x hx
    have hx2 : x ∈ firstPerKey [] items := List.take_subset _ _ hx
    exact ((firstPerKey_keys items []).2 x hx2).1
  · rw [he]
    exact (List.take_sublist _ _).trans (firstPerKey_sublist items [])

/-- Witness for `dedupe_headlines_correct`, on a list whose two entries have
case-insensitively equal URLs but different titles: only the first survives. -/
theorem dedupe_headlines_correct_witness :
    ((1 : Int) ≤ 5 ∧
      dedupe_headlines
          [⟨some "A", some "HTTP://X.com/1", none, none⟩,
           ⟨some "B", some "http://x.com/1", none, none⟩] 5 =
        (firstPerKey []
          [⟨some "A", some "HTTP://X.com/1", none, none⟩,
           ⟨some "B", some "http://x.com/1", none, none⟩]).take (5 : Int).toNat) ∧
    dedupe_headlines
        [⟨some "A", some "HTTP://X.com/1", none, none⟩,
         ⟨some "B", some "http://x.com/1", none, none⟩] 5 =
      [⟨some "A", some "HTTP://X.com/1", none, none⟩] :=
  ⟨⟨by decide,
    (dedupe_headlines_correct
      [⟨some "A", some "HTTP://X.com/1", none, none⟩,
       ⟨some "B", some "http://x.com/1", none, none⟩] 5 (by decide)).1⟩,
   by decide⟩

/-- C6 counterexample: with `limit = 0` the loop appends the first kept item
before checking the cap, so the result has one item, not at most zero. -/
theorem dedupe_headlines_limit_zero_counterexample :
    ¬ (((dedupe_headlines [⟨some "t", some "u", none, none⟩] 0).length : Int) ≤ 0) := by
  decide

/-- C8 counterexample: a `Symbol` whose `exchange` is already set but whose
`name` is unset (exactly what a profile response lacking `name` produces) has
its `exchange` overwritten by a later `ensure_symbol_metadata` call, because
the code only guards on `sym.name`. -/
theorem ensure_symbol_metadata_overwrites :
    (SymbolRec.mk "AAPL" none (some "OLDEX") none none none none).exchange
        = some "OLDEX" ∧
    (ensure_symbol_metadata
        (ProfileData.mk none (some "NEWEX") none none none none)
        (SymbolRec.mk "AAPL" none (some "OLDEX") none none none none)).exchange
      = some "NEWEX" := by
  decide

/-- C8 (amended): metadata is populated lazily, guarded on `name` alone:
once the `name` field is set (truthy), a later `ensure_symbol_metadata` call
returns the record completely unchanged; while `name` is unset, the other
metadata fields can be overwritten by truthy profile fields. -/
theorem ensure_symbol_metadata_name_guard (meta : ProfileData) (sym : SymbolRec)
    (h : pyTruthy sym.name = true) :
    ensure_symbol_metadata meta sym = sym := by
  simp [ensure_symbol_metadata, h]

/-- Witness for `ensure_symbol_metadata_name_guard`. -/
theorem ensure_symbol_metadata_name_guard_witness :
    pyTruthy (SymbolRec.mk "AAPL" (some "Apple Inc") none none none none none).name
        = true ∧
    ensure_symbol_metadata
        (ProfileData.mk (some "Other") (some "NEWEX") none none none none)
        (SymbolRec.mk "AAPL" (some "Apple Inc") none none none none none) =
      SymbolRec.mk "AAPL" (some "Apple Inc") none none none none none :=
  ⟨by decide,
   ensure_symbol_metadata_name_guard
     (ProfileData.mk (some "Other") (some "NEWEX") none none none none)
     (SymbolRec.mk "AAPL" (some "Apple Inc") none none none none none)
     (by decide)⟩

/-- C9: each `wait` sleeps `max 0 (next_allowed - now)` and then sets
`next_allowed` to the post-sleep time plus `period`; the shared limiter is
built with 5 calls per minute giving `period = 60 / 5 = 12`; and when the
clock is monotone (the second reading is at or after the first grant), two
consecutive grants are at least one period apart. -/
theorem rateLimiter_wait_correct :
    (∀ (rl : RateLimiter) (now : ℚ),
      (rl.wait now).slept = max 0 (rl.next_allowed - now) ∧
      (rl.wait now).releaseTime = now + max 0 (rl.next_allowed - now) ∧
      (rl.wait now).limiter.next_allowed = (rl.wait now).releaseTime + rl.period ∧
      (rl.wait now).limiter.period = rl.period) ∧
    (massive_limiter = some ⟨12, 0⟩ ∧ polygon_limiter = massive_limiter ∧
      (60 : ℚ) / 5 = 12) ∧
    (∀ (rl : RateLimiter) (now1 now2 : ℚ),
      (rl.wait now1).releaseTime ≤ now2 →
      (rl.wait now1).releaseTime + rl.period ≤
        (((rl.wait now1).limiter).wait now2).releaseTime) := by
  refine ⟨?_, ⟨?_, rfl, by norm_num⟩, ?_⟩
  · intro rl now
    by_cases h : now < rl.next_allowed
    · refine ⟨?_, ?_, rfl, rfl⟩ <;>
        simp [RateLimiter.wait, if_pos h, max_eq_right (by linarith : (0:ℚ) ≤ rl.next_allowed - now)]
    · refine ⟨?_, ?_, rfl, rfl⟩ <;>
        simp [RateLimiter.wait, if_neg h, max_eq_left (by linarith : rl.next_allowed - now ≤ (0:ℚ))]
  · show RateLimiter.init 5 = some ⟨12, 0⟩
    norm_num [RateLimiter.init]
  · intro rl now1 now2 hmono
    by_cases h1 : now1 < rl.next_allowed
    · simp only [RateLimiter.wait, if_pos h1] at hmono ⊢
      split
      next h2 => linarith
      next h2 => push_neg at h2; linarith
    · simp only [RateLimiter.wait, if_neg h1] at hmono ⊢
      split
      next h2 => linarith
      next h2 => push_neg at h2; linarith

/-- Witness for `rateLimiter_wait_correct`: the monotone-clock spacing part
at `rl = ⟨12, 0⟩`, `now1 = 5`, `now2 = 20`. -/
theorem rateLimiter_wait_correct_witness :
    ((RateLimiter.mk 12 0).wait 5).releaseTime ≤ 20 ∧
    ((RateLimiter.mk 12 0).wait 5).releaseTime + (RateLimiter.mk 12 0).period ≤
      ((((RateLimiter.mk 12 0).wait 5).limiter).wait 20).releaseTime :=
  ⟨by norm_num [RateLimiter.wait],
   rateLimiter_wait_correct.2.2 (RateLimiter.mk 12 0) 5 20
     (by norm_num [RateLimiter.wait])⟩

/-- C10: `confirm_symbol` normalises the ticker and creates/commits the
`Symbol` row before the `start`/`end` parameters are parsed or validated, so
the ticker is in the committed store even when the request then fails (400
for a malformed date or for clamped start exceeding clamped end). -/
theorem confirm_symbol_persists_on_error (store : Finset String)
    (ticker : String) (start end_ : DateParam) (today : Int)
    (ht : pyNormTicker (pyNormTicker ticker) ≠ "") :
    (confirm_symbol_early store ticker start end_ today).1 =
      insert (pyNormTicker (pyNormTicker ticker)) store ∧
    ∀ e, (confirm_symbol_early store ticker start end_ today).2 = .error e →
      pyNormTicker (pyNormTicker ticker) ∈
        (confirm_symbol_early store ticker start end_ today).1 := by
  have hg : get_or_create_symbol store (pyNormTicker ticker) =
      .ok (insert (pyNormTicker (pyNormTicker ticker)) store,
           pyNormTicker (pyNormTicker ticker)) := by
    simp [get_or_create_symbol, ht]
  cases hc : confirmClamp today start end_ with
  | error e =>
    refine ⟨?_, ?_⟩ <;>
      simp [confirm_symbol_early, hg, hc, Finset.mem_insert_self]
  | ok r =>
    refine ⟨?_, ?_⟩ <;>
      simp [confirm_symbol_early, hg, hc, Finset.mem_insert_self]

/-- Witness for `confirm_symbol_persists_on_error`: a malformed `start`
parameter 400-fails the request while AAPL stays committed. -/
theorem confirm_symbol_persists_on_error_witness :
    pyNormTicker (pyNormTicker "aapl") ≠ "" ∧
    ((confirm_symbol_early ∅ "aapl" .malformed .absent 1000).1 =
      insert (pyNormTicker (pyNormTicker "aapl")) ∅ ∧
    ∀ e, (confirm_symbol_early ∅ "aapl" .malformed .absent 1000).2 = .error e →
      pyNormTicker (pyNormTicker "aapl") ∈
        (confirm_symbol_early ∅ "aapl" .malformed .absent 1000).1) :=
  ⟨by decide, confirm_symbol_persists_on_error ∅ "aapl" .malformed .absent 1000 (by decide)⟩

/-- C5: when at least one article is cached for the `(symbol, day)` (and the
request limit is at least the endpoint minimum of 5, so `limit * 3 ≥ 1`),
the provider is never called, at most `3 × limit` cached candidates are
read, deduplicated, and returned, and the article store is unchanged. -/
theorem news_cache_hit (store : Finset String) (cachedAll : List NewsArticleRec)
    (providerResult : List GdeltHeadline) (limit : Int)
    (hne : cachedAll ≠ []) (hl : 5 ≤ limit) :
    (news_for_day store cachedAll providerResult limit).providerCalled = false ∧
    (news_for_day store cachedAll providerResult limit).headlines =
      dedupe_headlines ((cachedAll.take (limit * 3).toNat).map cachedToHeadline)
        limit ∧
    (news_for_day store cachedAll providerResult limit).store = store := by
  have hcne : ¬ (cachedAll.take (limit * 3).toNat).isEmpty = true := by
    rw [List.isEmpty_iff, List.take_eq_nil_iff]
    push_neg
    exact ⟨by omega, hne⟩
  refine ⟨?_, ?_, ?_⟩ <;> simp only [news_for_day, if_neg hcne]

/-- Witness for `news_cache_hit`: 3 cached articles, limit 5 — exactly those
3 are returned (in order) and the provider is not called. -/
theorem news_cache_hit_witness :
    ([⟨"A1", "http://a1", none, none⟩, ⟨"A2", "http://a2", none, none⟩,
      ⟨"A3", "http://a3", none, none⟩] : List NewsArticleRec) ≠ [] ∧
    (5 : Int) ≤ 5 ∧
    ((news_for_day ∅
        [⟨"A1", "http://a1", none, none⟩, ⟨"A2", "http://a2", none, none⟩,
         ⟨"A3", "http://a3", none, none⟩]
        [⟨some "P", some "http://p", none, none⟩] 5).providerCalled = false ∧
      (news_for_day ∅
        [⟨"A1", "http://a1", none, none⟩, ⟨"A2", "http://a2", none, none⟩,
         ⟨"A3", "http://a3", none, none⟩]
        [⟨some "P", some "http://p", none, none⟩] 5).headlines =
        dedupe_headlines
          (([⟨"A1", "http://a1", none, none⟩, ⟨"A2", "http://a2", none, none⟩,
             ⟨"A3", "http://a3", none, none⟩] : List NewsArticleRec).take
              ((5 : Int) * 3).toNat |>.map cachedToHeadline) 5 ∧
      (news_for_day ∅
        [⟨"A1", "http://a1", none, none⟩, ⟨"A2", "http://a2", none, none⟩,
         ⟨"A3", "http://a3", none, none⟩]
        [⟨some "P", some "http://p", none, none⟩] 5).store = ∅) ∧
    (news_for_day ∅
        [⟨"A1", "http://a1", none, none⟩, ⟨"A2", "http://a2", none, none⟩,
         ⟨"A3", "http://a3", none, none⟩]
        [⟨some "P", some "http://p", none, none⟩] 5).headlines =
      [⟨some "A1", some "http://a1", none, none⟩,
       ⟨some "A2", some "http://a2", none, none⟩,
       ⟨some "A3", some "http://a3", none, none⟩] :=
  ⟨by decide, by decide,
   news_cache_hit ∅
     [⟨"A1", "http://a1", none, none⟩, ⟨"A2", "http://a2", none, none⟩,
      ⟨"A3", "http://a3", none, none⟩]
     [⟨some "P", some "http://p", none, none⟩] 5 (by decide) (by decide),
   by decide⟩

/-- C4 counterexample: cache miss, store already holding `http://a` from an
earlier request for the same symbol (the uniqueness constraint spans days);
the provider returns two articles `http://a` and `http://b`.  The batch
commit hits the constraint on `http://a`, the whole batch is rolled back,
and the non-conflicting `http://b` is NOT stored — though both deduplicated
articles are still returned. -/
theorem news_insert_counterexample :
    (news_for_day {"http://a"} []
        [⟨some "A", some "http://a", none, none⟩,
         ⟨some "B", some "http://b", none, none⟩] 5).providerCalled = true ∧
    ⟨some "B", some "http://b", some "", none⟩ ∈
      (news_for_day {"http://a"} []
        [⟨some "A", some "http://a", none, none⟩,
         ⟨some "B", some "http://b", none, none⟩] 5).headlines ∧
    ("http://b" ∈
      (news_for_day {"http://a"} []
        [⟨some "A", some "http://a", none, none⟩,
         ⟨some "B", some "http://b", none, none⟩] 5).store) = False := by
  decide

/-- C4 (amended): on a cache miss the normalised, deduplicated provider
results are inserted as ONE batch commit: if any row of the batch violates
the `(symbol_id, url)` uniqueness constraint (a URL already stored for the
symbol, or duplicated inside the batch), the whole batch is rolled back and
no article of the response is persisted; otherwise all are persisted.  The
deduplicated set is returned to the caller regardless. -/
theorem news_cache_miss_batch (store : Finset String)
    (providerResult : List GdeltHeadline) (limit : Int) :
    (news_for_day store [] providerResult limit).providerCalled = true ∧
    (news_for_day store [] providerResult limit).headlines =
      dedupe_headlines (providerResult.map normalizeHeadline) limit ∧
    (news_for_day store [] providerResult limit).store =
      (if (∃ u ∈ headlineUrls (dedupe_headlines
              (providerResult.map normalizeHeadline) limit), u ∈ store) ∨
          ¬ (headlineUrls (dedupe_headlines
              (providerResult.map normalizeHeadline) limit)).Nodup
       then store
       else store ∪ (headlineUrls (dedupe_headlines
              (providerResult.map normalizeHeadline) limit)).toFinset) := by
  have hnf : news_for_day store [] providerResult limit =
      ⟨dedupe_headlines (providerResult.map normalizeHeadline) limit, true,
       if (headlineUrls (dedupe_headlines
              (providerResult.map normalizeHeadline) limit)).Nodup ∧
          ∀ u ∈ headlineUrls (dedupe_headlines
              (providerResult.map normalizeHeadline) limit), u ∉ store
       then store ∪ (headlineUrls (dedupe_headlines
              (providerResult.map normalizeHeadline) limit)).toFinset
       else store⟩ := by
    simp [news_for_day]
  rw [hnf]
  refine ⟨rfl, rfl, ?_⟩
  show (if (headlineUrls (dedupe_headlines
          (providerResult.map normalizeHeadline) limit)).Nodup ∧
        ∀ u ∈ headlineUrls (dedupe_headlines
          (providerResult.map normalizeHeadline) limit), u ∉ store
      then store ∪ (headlineUrls (dedupe_headlines
          (providerResult.map normalizeHeadline) limit)).toFinset
      else store) = _
  split
  next hok =>
    rw [if_neg]
    push_neg
    exact ⟨fun u hu => hok.2 u hu, hok.1⟩
  next hfail =>
    rw [if_pos]
    by_contra hcon
    push_neg at hcon
    exact hfail ⟨hcon.2, fun u hu => hcon.1 u hu⟩

/-- C7: with the key set and a non-blank ticker, a malformed date string
raises `ProviderError` before any network call; once the loop is reached
(valid dates with `df ≤ dt`, range not before the epoch), an HTTP 401/403 or
400 on any attempt surfaces immediately as a `ProviderError` with no further
attempt; any other failure sleeps `0.8 s × attempt` and retries, up to 3
total attempts; after the 3rd failed attempt a single wrapped
`ProviderError` is raised, with sleeps `[0.8 × 1, 0.8 × 2]` in between. -/
theorem fetch_bars_retry_correct (ticker : String) (df dt_ : Int)
    (outcomes : Nat → AttemptOutcome)
    (ht : pyNormTicker ticker ≠ "") (hle : df ≤ dt_)
    (hepoch : UNIX_EPOCH ≤ dt_) :
    (∀ dto, fetch_bars true ticker none dto outcomes = ⟨.errBadDates, 0, []⟩) ∧
    fetch_bars true ticker (some df) none outcomes = ⟨.errBadDates, 0, []⟩ ∧
    (∀ s, outcomes 1 = .authErr s →
      fetch_bars true ticker (some df) (some dt_) outcomes =
        ⟨.errAuth s, 1, []⟩) ∧
    (outcomes 1 = .badReq →
      fetch_bars true ticker (some df) (some dt_) outcomes =
        ⟨.errBadRequest, 1, []⟩) ∧
    (∀ bars, outcomes 1 = .ok bars →
      fetch_bars true ticker (some df) (some dt_) outcomes =
        ⟨.ok bars, 1, []⟩) ∧
    (∀ s, outcomes 1 = .netFail → outcomes 2 = .authErr s →
      fetch_bars true ticker (some df) (some dt_) outcomes =
        ⟨.errAuth s, 2, [4 / 5 * 1]⟩) ∧
    (outcomes 1 = .netFail → outcomes 2 = .badReq →
      fetch_bars true ticker (some df) (some dt_) outcomes =
        ⟨.errBadRequest, 2, [4 / 5 * 1]⟩) ∧
    (∀ s, outcomes 1 = .netFail → outcomes 2 = .netFail →
        outcomes 3 = .authErr s →
      fetch_bars true ticker (some df) (some dt_) outcomes =
        ⟨.errAuth s, 3, [4 / 5 * 1, 4 / 5 * 2]⟩) ∧
    (outcomes 1 = .netFail → outcomes 2 = .netFail → outcomes 3 = .badReq →
      fetch_bars true ticker (some df) (some dt_) outcomes =
        ⟨.errBadRequest, 3, [4 / 5 * 1, 4 / 5 * 2]⟩) ∧
    (outcomes 1 = .netFail → outcomes 2 = .netFail → outcomes 3 = .netFail →
      fetch_bars true ticker (some df) (some dt_) outcomes =
        ⟨.errWrapped 3, 3, [4 / 5 * 1, 4 / 5 * 2]⟩) := by
  have hloop : fetch_bars true ticker (some df) (some dt_) outcomes =
      runAttempts outcomes (4 / 5) 1 3 := by
    simp [fetch_bars, ht, not_lt.mpr hle, not_lt.mpr hepoch]
  refine ⟨?_, ?_, ?_, ?_, ?_, ?_, ?_, ?_, ?_, ?_⟩
  · intro dto; simp [fetch_bars, ht]
  · simp [fetch_bars, ht]
  · intro s h1; rw [hloop]; simp [runAttempts, h1]
  · intro h1; rw [hloop]; simp [runAttempts, h1]
  · intro bars h1; rw [hloop]; simp [runAttempts, h1]
  · intro s h1 h2; rw [hloop]; simp [runAttempts, h1, h2]
  · intro h1 h2; rw [hloop]; simp [runAttempts, h1, h2]
  · intro s h1 h2 h3; rw [hloop]; simp [runAttempts, h1, h2, h3]
  · intro h1 h2 h3; rw [hloop]; simp [runAttempts, h1, h2, h3]
  · intro h1 h2 h3; rw [hloop]; simp [runAttempts, h1, h2, h3]

/-- Witness for `fetch_bars_retry_correct`: every attempt fails transiently;
3 calls are made, sleeps 0.8 and 1.6 seconds happen in between, and one
wrapped `ProviderError` results. -/
theorem fetch_bars_retry_correct_witness :
    pyNormTicker "AAPL" ≠ "" ∧ (0 : Int) ≤ 10 ∧ UNIX_EPOCH ≤ (10 : Int) ∧
    fetch_bars true "AAPL" (some 0) (some 10) (fun _ => .netFail) =
      ⟨.errWrapped 3, 3, [4 / 5 * 1, 4 / 5 * 2]⟩ :=
  ⟨by decide, by decide, by decide,
   (fetch_bars_retry_correct "AAPL" 0 10 (fun _ => .netFail)
      (by decide) (by decide) (by decide)).2.2.2.2.2.2.2.2.2 rfl rfl rfl⟩

theorem mem_rangeDays (x : Int) : ∀ (n : Nat) (a : Int),
    x ∈ rangeDays a n ↔ a ≤ x ∧ x < a + (n : Int) := by
  intro n
  induction n with
  | zero => intro a; simp [rangeDays]
  | succ n ih =>
    intro a
    rw [rangeDays, List.mem_cons, ih (a + 1)]
    push_cast
    omega

theorem nodup_rangeDays : ∀ (n : Nat) (a : Int), (rangeDays a n).Nodup := by
  intro n
  induction n with
  | zero => intro a; simp [rangeDays]
  | succ n ih =>
    intro a
    rw [rangeDays, List.nodup_cons]
    refine ⟨fun hmem => ?_, ih (a + 1)⟩
    rw [mem_rangeDays] at hmem
    omega

theorem fetchBarsDays_nodup (P : Int → Bool) (a b : Int) :
    (fetchBarsDays P a b).Nodup :=
  List.Nodup.filter _ (nodup_rangeDays _ _)

theorem mem_fetchBarsDays (P : Int → Bool) (a b x : Int) :
    x ∈ fetchBarsDays P a b ↔ (a ≤ x ∧ x ≤ b) ∧ P x = true := by
  rw [fetchBarsDays, List.mem_filter, mem_rangeDays]
  constructor
  · rintro ⟨⟨h1, h2⟩, hP⟩
    exact ⟨⟨h1, by omega⟩, hP⟩
  · rintro ⟨⟨h1, h2⟩, hP⟩
    exact ⟨⟨h1, by omega⟩, hP⟩

theorem fetchBarsDays_toFinset (P : Int → Bool) (a b : Int) :
    (fetchBarsDays P a b).toFinset =
      (Finset.Icc a b).filter (fun d => P d = true) := by
  ext x
  rw [List.mem_toFinset, mem_fetchBarsDays, Finset.mem_filter, Finset.mem_Icc]

theorem rowByRow_spec (batch : List Int) :
    ∀ s : Finset Int, batch.Nodup →
      rowByRow s batch = (s ∪ batch.toFinset, (batch.toFinset \ s).card) := by
  induction batch with
  | nil => intro s _; simp [rowByRow]
  | cons t ts ih =>
    intro s hnd
    rw [List.nodup_cons] at hnd
    obtain ⟨htn, hnd⟩ := hnd
    by_cases hts : t ∈ s
    · rw [rowByRow, if_pos hts, ih s hnd]
      have h1 : s ∪ (t :: ts).toFinset = s ∪ ts.toFinset := by
        ext x
        simp only [List.toFinset_cons, Finset.mem_union, Finset.mem_insert]
        constructor
        · rintro (hx | hx | hx)
          · exact Or.inl hx
          · exact Or.inl (hx ▸ hts)
          · exact Or.inr hx
        · rintro (hx | hx)
          · exact Or.inl hx
          · exact Or.inr (Or.inr hx)
      have h2 : (t :: ts).toFinset \ s = ts.toFinset \ s := by
        ext x
        simp only [List.toFinset_cons, Finset.mem_sdiff, Finset.mem_insert]
        constructor
        · rintro ⟨hx | hx, hxs⟩
          · exact absurd (hx ▸ hts) hxs
          · exact ⟨hx, hxs⟩
        · rintro ⟨hx, hxs⟩
          exact ⟨Or.inr hx, hxs⟩
      rw [← h1, ← h2]
    · rw [rowByRow, if_neg hts]
      have hr := ih (insert t s) hnd
      rw [hr]
      have h1 : insert t s ∪ ts.toFinset = s ∪ (t :: ts).toFinset := by
        simp only [List.toFinset_cons]
        rw [Finset.insert_union, Finset.union_insert]
      have e3 : t ∉ ts.toFinset \ s := by
        simp only [Finset.mem_sdiff, List.mem_toFinset]
        tauto
      have h2 : (ts.toFinset \ insert t s).card + 1 = ((t :: ts).toFinset \ s).card := by
        have e1 : ts.toFinset \ insert t s = (ts.toFinset \ s).erase t := by
          ext x
          simp only [Finset.mem_sdiff, Finset.mem_insert, Finset.mem_erase]
          tauto
        have e2 : (t :: ts).toFinset \ s = insert t (ts.toFinset \ s) := by
          ext x
          simp only [List.toFinset_cons, Finset.mem_sdiff, Finset.mem_insert]
          constructor
          · rintro ⟨hx | hx, hxs⟩
            · exact Or.inl hx
            · exact Or.inr ⟨hx, hxs⟩
          · rintro (hx | ⟨hx, hxs⟩)
            · exact ⟨Or.inl hx, hx ▸ hts⟩
            · exact ⟨Or.inr hx, hxs⟩
        rw [e1, Finset.erase_eq_of_not_mem e3, e2,
          Finset.card_insert_of_not_mem e3]
      simp only [Prod.mk.injEq]
      exact ⟨h1, h2⟩

theorem mergeBatch_spec (s : Finset Int) (batch : List Int)
    (hnd : batch.Nodup) :
    mergeBatch s batch = (s ∪ batch.toFinset, (batch.toFinset \ s).card) := by
  rw [mergeBatch]
  split
  next hok =>
    obtain ⟨hdis, _⟩ := hok
    have h1 : batch.toFinset \ s = batch.toFinset := by
      rw [Finset.sdiff_eq_self_iff_disjoint]
      rw [Finset.disjoint_left]
      intro x hx hxs
      exact hdis x (List.mem_toFinset.mp hx) hxs
    rw [h1, List.toFinset_card_of_nodup hnd]
  next => exact rowByRow_spec batch s hnd

theorem runGaps_fst_mem (P : Int → Bool) (gaps : List (Int × Int)) :
    ∀ (s : Finset Int) (n : Nat) (x : Int),
      x ∈ (runGaps P (s, n) gaps).1 ↔
        x ∈ s ∨ ∃ g ∈ gaps, x ∈ Finset.Icc g.1 g.2 ∧ P x = true := by
  induction gaps with
  | nil => intro s n x; simp [runGaps]
  | cons g gs ih =>
    intro s n x
    have hstep : runGaps P (s, n) (g :: gs) =
        runGaps P ((mergeBatch s (fetchBarsDays P g.1 g.2)).1,
          n + (mergeBatch s (fetchBarsDays P g.1 g.2)).2) gs := rfl
    rw [hstep, ih]
    rw [mergeBatch_spec s _ (fetchBarsDays_nodup P g.1 g.2)]
    simp only [Finset.mem_union, fetchBarsDays_toFinset, List.mem_toFinset,
      Finset.mem_filter, List.mem_cons, exists_eq_or_imp]
    tauto

theorem runGaps_covered (P : Int → Bool) (gaps : List (Int × Int)) :
    ∀ (s : Finset Int) (n : Nat),
      (∀ g ∈ gaps, ∀ x ∈ Finset.Icc g.1 g.2, P x = true → x ∈ s) →
      runGaps P (s, n) gaps = (s, n) := by
  induction gaps with
  | nil => intro s n _; rfl
  | cons g gs ih =>
    intro s n hcov
    have hsub : (fetchBarsDays P g.1 g.2).toFinset ⊆ s := by
      rw [fetchBarsDays_toFinset]
      intro x hx
      rw [Finset.mem_filter] at hx
      exact hcov g (List.mem_cons_self g gs) x hx.1 hx.2
    have hstep : runGaps P (s, n) (g :: gs) =
        runGaps P ((mergeBatch s (fetchBarsDays P g.1 g.2)).1,
          n + (mergeBatch s (fetchBarsDays P g.1 g.2)).2) gs := rfl
    rw [hstep, mergeBatch_spec s _ (fetchBarsDays_nodup P g.1 g.2)]
    have hu : s ∪ (fetchBarsDays P g.1 g.2).toFinset = s :=
      Finset.union_eq_left.mpr hsub
    have hc : ((fetchBarsDays P g.1 g.2).toFinset \ s).card = 0 := by
      rw [Finset.card_eq_zero, Finset.sdiff_eq_empty_iff_subset]
      exact hsub
    rw [hu, hc]
    exact ih s (n + 0) (fun g1 hg1 => hcov g1 (List.mem_cons_of_mem g hg1)) |>.trans
      (by rw [Nat.add_zero])

theorem computeGaps_none_eq (ds de : Int) (h : ds ≤ de) :
    computeGaps none ds de = [(ds, de)] := by
  simp [computeGaps, h]

theorem mem_computeGaps_some (m M ds de : Int) (g : Int × Int) :
    g ∈ computeGaps (some (m, M)) ds de ↔
      g.1 ≤ g.2 ∧ ((g.1 = ds ∧ g.2 = m - 1 ∧ ds < m) ∨
        (g.1 = M + 1 ∧ g.2 = de ∧ M < de)) := by
  by_cases h1 : ds < m <;> by_cases h2 : M < de <;>
    simp [computeGaps, h1, h2, gt_iff_lt, Prod.ext_iff] <;> tauto

/-- C3: the merge of each fetched batch adds exactly its rows (one batch
commit when no row conflicts, otherwise a row-by-row retry that skips only
the individually conflicting rows, so every non-conflicting row is
persisted and counted); consequently, with a deterministic provider and no
data change in between, a second `confirm` with the same validated range
changes nothing and reports `bars_inserted = 0` — in particular it raises
no uniqueness violation up to the caller and stores no duplicate row. -/
theorem confirm_bars_idempotent (P : Int → Bool) (s0 : Finset Int)
    (ds de : Int) (hde : ds ≤ de) :
    (∀ (s : Finset Int) (batch : List Int), batch.Nodup →
      mergeBatch s batch = (s ∪ batch.toFinset, (batch.toFinset \ s).card)) ∧
    confirmBars P (confirmBars P s0 ds de).1 ds de =
      ((confirmBars P s0 ds de).1, 0) := by
  refine ⟨mergeBatch_spec, ?_⟩
  have hmem : ∀ x : Int, x ∈ (confirmBars P s0 ds de).1 ↔
      x ∈ s0 ∨ ∃ g ∈ computeGaps (haveRange s0) ds de,
        x ∈ Finset.Icc g.1 g.2 ∧ P x = true := fun x =>
    runGaps_fst_mem P (computeGaps (haveRange s0) ds de) s0 0 x
  set s1 := (confirmBars P s0 ds de).1 with hs1
  have hsub01 : s0 ⊆ s1 := fun x hx => (hmem x).mpr (Or.inl hx)
  show confirmBars P s1 ds de = (s1, 0)
  rw [confirmBars]
  apply runGaps_covered
  intro g hg x hx hP
  rw [Finset.mem_Icc] at hx
  obtain ⟨hx1, hx2⟩ := hx
  by_cases h1 : s1.Nonempty
  · -- coverage exists after the first call
    have hr1 : haveRange s1 = some (s1.min' h1, s1.max' h1) := by
      rw [haveRange, dif_pos h1]
    rw [hr1] at hg
    rcases (mem_computeGaps_some _ _ _ _ g).mp hg with ⟨hab, hleft | hright⟩
    · -- left gap [ds, min s1 - 1]
      obtain ⟨hga, hgb, hdm1⟩ := hleft
      rw [hga] at hx1
      rw [hgb] at hx2
      by_cases h0 : s0.Nonempty
      · have hm0mem : s0.min' h0 ∈ s1 := hsub01 (Finset.min'_mem s0 h0)
        have hm1le : s1.min' h1 ≤ s0.min' h0 := Finset.min'_le s1 _ hm0mem
        have hr0 : haveRange s0 = some (s0.min' h0, s0.max' h0) := by
          rw [haveRange, dif_pos h0]
        apply (hmem x).mpr
        refine Or.inr ⟨(ds, s0.min' h0 - 1), ?_, ?_, hP⟩
        · rw [hr0]
          exact (mem_computeGaps_some _ _ _ _ _).mpr
            ⟨by dsimp only; omega, Or.inl ⟨rfl, rfl, by omega⟩⟩
        · exact Finset.mem_Icc.mpr ⟨hx1, by omega⟩
      · have hs0e : s0 = ∅ := Finset.not_nonempty_iff_eq_empty.mp h0
        have hr0 : haveRange s0 = none := by rw [haveRange, dif_neg h0]
        have hm1de : s1.min' h1 ≤ de := by
          rcases (hmem _).mp (Finset.min'_mem s1 h1) with hmem0 | ⟨g0, hg0, hicc, _⟩
          · rw [hs0e] at hmem0; exact absurd hmem0 (Finset.not_mem_empty _)
          · rw [hr0, computeGaps_none_eq ds de hde] at hg0
            rw [List.mem_singleton.mp hg0] at hicc
            exact (Finset.mem_Icc.mp hicc).2
        apply (hmem x).mpr
        refine Or.inr ⟨(ds, de), ?_, Finset.mem_Icc.mpr ⟨hx1, by omega⟩, hP⟩
        rw [hr0, computeGaps_none_eq ds de hde]
        exact List.mem_singleton_self _
    · -- right gap [max s1 + 1, de]
      obtain ⟨hga, hgb, hM1de⟩ := hright
      rw [hga] at hx1
      rw [hgb] at hx2
      by_cases h0 : s0.Nonempty
      · have hM0mem : s0.max' h0 ∈ s1 := hsub01 (Finset.max'_mem s0 h0)
        have hM1ge : s0.max' h0 ≤ s1.max' h1 := Finset.le_max' s1 _ hM0mem
        have hr0 : haveRange s0 = some (s0.min' h0, s0.max' h0) := by
          rw [haveRange, dif_pos h0]
        apply (hmem x).mpr
        refine Or.inr ⟨(s0.max' h0 + 1, de), ?_, ?_, hP⟩
        · rw [hr0]
          exact (mem_computeGaps_some _ _ _ _ _).mpr
            ⟨by dsimp only; omega, Or.inr ⟨rfl, rfl, by omega⟩⟩
        · exact Finset.mem_Icc.mpr ⟨by omega, hx2⟩
      · have hs0e : s0 = ∅ := Finset.not_nonempty_iff_eq_empty.mp h0
        have hr0 : haveRange s0 = none := by rw [haveRange, dif_neg h0]
        have hm1ds : ds ≤ s1.min' h1 := by
          rcases (hmem _).mp (Finset.min'_mem s1 h1) with hmem0 | ⟨g0, hg0, hicc, _⟩
          · rw [hs0e] at hmem0; exact absurd hmem0 (Finset.not_mem_empty _)
          · rw [hr0, computeGaps_none_eq ds de hde] at hg0
            rw [List.mem_singleton.mp hg0] at hicc
            exact (Finset.mem_Icc.mp hicc).1
        have hmM : s1.min' h1 ≤ s1.max' h1 :=
          Finset.min'_le s1 _ (Finset.max'_mem s1 h1)
        apply (hmem x).mpr
        refine Or.inr ⟨(ds, de), ?_, Finset.mem_Icc.mpr ⟨by omega, hx2⟩, hP⟩
        rw [hr0, computeGaps_none_eq ds de hde]
        exact List.mem_singleton_self _
  · -- no bars at all after the first call: nothing was fetched, s0 empty
    have hs1e : s1 = ∅ := Finset.not_nonempty_iff_eq_empty.mp h1
    have hs0e : s0 = ∅ := Finset.subset_empty.mp (hs1e ▸ hsub01)
    have hr1 : haveRange s1 = none := by rw [haveRange, dif_neg h1]
    have hr0 : haveRange s0 = none := by
      rw [haveRange, dif_neg (by rw [hs0e]; exact Finset.not_nonempty_empty)]
    rw [hr1, computeGaps_none_eq ds de hde] at hg
    have hgde : g = (ds, de) := List.mem_singleton.mp hg
    rw [hgde] at hx1 hx2
    apply (hmem x).mpr
    refine Or.inr ⟨(ds, de), ?_, Finset.mem_Icc.mpr ⟨hx1, hx2⟩, hP⟩
    rw [hr0, computeGaps_none_eq ds de hde]
    exact List.mem_singleton_self _

/-- Witness for `confirm_bars_idempotent`: provider has a bar on day 2 only,
the store starts with a bar on day 3, range `[0, 5]`; the first confirm
inserts exactly 1 bar (day 2), the second inserts 0 and leaves the store
unchanged. -/
theorem confirm_bars_idempotent_witness :
    (0 : Int) ≤ 5 ∧
    ((∀ (s : Finset Int) (batch : List Int), batch.Nodup →
        mergeBatch s batch = (s ∪ batch.toFinset, (batch.toFinset \ s).card)) ∧
      confirmBars (fun d => decide (d = 2))
          (confirmBars (fun d => decide (d = 2)) {3} 0 5).1 0 5 =
        ((confirmBars (fun d => decide (d = 2)) {3} 0 5).1, 0)) ∧
    confirmBars (fun d => decide (d = 2)) {3} 0 5 = ({2, 3}, 1) :=
  ⟨by decide,
   confirm_bars_idempotent (fun d => decide (d = 2)) {3} 0 5 (by decide),
   by decide⟩

end FinanceDash
